import Mathlib

/-!
Shallow embedding of the pyftms FTMS client library (Python) in Lean 4,
used to check the natural-language specification against the code.

Each definition is translated from a named function of the source tree:
  * `src/pyftms/serializer/num.py`            — number codec
  * `src/pyftms/client/properties/features.py`— settings pruning
  * `src/pyftms/client/properties/machine_type.py` — advertisement parsing
  * `src/pyftms/models/realtime_data/common.py`    — bitmask-gated decoding
  * `src/pyftms/client/backends/updater.py`   — realtime delta updater
  * `src/pyftms/client/backends/controller.py`— control-point state machine

Modelling conventions: byte streams are `List Nat` with each element in
`0..255`; Python `None` is `Option.none`; raised exceptions are `none` /
`Except.error`; Python numbers handled by the updater/controller are
modelled as exact rationals (the embedded claims never depend on binary
floating-point rounding; the one claim that does is left unstated).
-/

namespace PyFtms

/-! ## Little-endian byte helpers (`int.from_bytes` / `int.to_bytes`) -/

/-- Value of a little-endian byte list (`int.from_bytes(data, "little")`). -/
def readLE : List Nat → Nat
  | [] => 0
  | b :: bs => b + 256 * readLE bs

/-- Little-endian byte list of width `n` for value `v`
(`v.to_bytes(n, "little")`, truncating to `n` bytes). -/
def toLEBytes : Nat → Nat → List Nat
  | 0, _ => []
  | n + 1, v => (v % 256) :: toLEBytes n (v / 256)

/-- Signed reinterpretation used by `int.from_bytes(data, "little", signed=sign)`:
the raw unsigned value is shifted down by `2^(8*len)` when the top bit is set. -/
def intFromBytes (sign : Bool) (bs : List Nat) : Int :=
  let raw := readLE bs
  if sign ∧ 2 ^ (8 * bs.length - 1) ≤ raw then
    (raw : Int) - 2 ^ (8 * bs.length)
  else
    (raw : Int)

/-! ## Number codec (`src/pyftms/serializer/num.py`, class `NumSerializer`) -/

/-- The three values produced by `_parse_fmt`: byte size, optional scale
factor and signedness.  Python stores the factor as a `float`; the embedding
keeps it as an exact rational, which the settled claims never distinguish. -/
structure NumSpec where
  size : Nat
  factor : Option ℚ
  sign : Bool
deriving DecidableEq, Repr

/-- `NumSerializer._none`: the FTMS `Data Not Available` sentinel,
`(1 << (8 * size - sign)) - 1` with `sign` read as `1` for signed. -/
def noneVal (sp : NumSpec) : Nat :=
  2 ^ (8 * sp.size - (if sp.sign then 1 else 0)) - 1

/-- Truthiness of the stored factor (`elif self.factor:`):
`None` and `0.0` are falsy. -/
def factorTruthy (sp : NumSpec) : Option ℚ :=
  match sp.factor with
  | none => none
  | some f => if f = 0 then none else some f

/-- `NumSerializer._deserialize`: read `size` bytes (EOF error when the
stream is shorter, modelled as `none`), reinterpret as a little-endian
signed/unsigned integer, map the sentinel to `None`, otherwise scale by the
factor when it is truthy.  Returns the decoded value and the rest of the
stream. -/
def numDeserialize (sp : NumSpec) (src : List Nat) : Option (Option ℚ × List Nat) :=
  if src.length < sp.size then
    none
  else
    let v := intFromBytes sp.sign (src.take sp.size)
    if v = (noneVal sp : Int) then
      some (none, src.drop sp.size)
    else
      match factorTruthy sp with
      | some f => some (some (v * f), src.drop sp.size)
      | none => some (some (v : ℚ), src.drop sp.size)

/-- Python `int(x)` on a real value: truncation toward zero. -/
def ratTrunc (q : ℚ) : Int :=
  Int.tdiv q.num (q.den : Int)

/-- `NumSerializer.serialize`: `None` becomes the sentinel (no scaling),
otherwise the value is divided by a truthy factor; the result is truncated
to an integer and written as `size` little-endian bytes.  `to_bytes` raises
`OverflowError` (modelled as `none`) outside the signed/unsigned range. -/
def numSerialize (sp : NumSpec) (val : Option ℚ) : Option (List Nat) :=
  let v : Int :=
    match val with
    | none => (noneVal sp : Int)
    | some q =>
      match factorTruthy sp with
      | some f => ratTrunc (q / f)
      | none => ratTrunc q
  let lo : Int := if sp.sign then -(2 ^ (8 * sp.size - 1)) else 0
  let hi : Int := if sp.sign then 2 ^ (8 * sp.size - 1) else 2 ^ (8 * sp.size)
  if lo ≤ v ∧ v < hi then
    some (toLEBytes sp.size (Int.toNat (Int.emod v (2 ^ (8 * sp.size)))))
  else
    none

/-! ## Format-string validation (`src/pyftms/serializer/num.py`, `_parse_fmt`)

`_PARAM_PATTERN = re.compile(r"[us][1-8](\.\d{1,8})?$")` is applied with
`re.match` (anchored at the start).  Python's `$` also matches just before a
single final newline.  `\d` is modelled as the ASCII digits `0-9`; the
embedding therefore only speaks about ASCII inputs (Python's `\d` would also
accept non-ASCII Unicode decimal digits). -/

/-- Acceptance of the regex position after the format body: the `$` anchor,
which matches at the end of the string or just before one final newline. -/
def endOk : List Char → Bool
  | [] => true
  | [c] => c = '\n'
  | _ => false

/-- Numeric value of a digit run. -/
def digitsToNat : List Char → Nat
  | [] => 0
  | c :: cs => (c.toNat - 48) * 10 ^ cs.length + digitsToNat cs

/-- The optional `(\.\d{1,8})?` group after the leading dot: the greedy run
of digits must have length 1..8 (a longer run cannot match, and shorter
backtracks fail because the next character is again a digit), followed by
the `$` anchor.  Returns the factor value `digits / 10^len`. -/
def parseFract (ds : List Char) : Option ℚ :=
  let run := ds.takeWhile Char.isDigit
  let r := run.length
  if 1 ≤ r ∧ r ≤ 8 ∧ endOk (ds.drop r) then
    some ((digitsToNat run : ℚ) / 10 ^ r)
  else
    none

/-- `_parse_fmt`: validates the format string against the pattern and
returns `(size, factor, sign)`; a failed match raises
`ValueError("Wrong serializer format.")`, modelled as `none`. -/
def parseFmt (s : String) : Option NumSpec :=
  match s.data with
  | c0 :: c1 :: rest =>
    if (c0 = 'u' ∨ c0 = 's') ∧ '1' ≤ c1 ∧ c1 ≤ '8' then
      if endOk rest then
        some ⟨c1.toNat - 48, none, c0 = 's'⟩
      else
        match rest with
        | '.' :: ds => (parseFract ds).map fun f => ⟨c1.toNat - 48, some f, c0 = 's'⟩
        | _ => none
    else
      none
  | _ => none

/-- Construction of the canonical accepted strings, used to characterise
the acceptance set of `parseFmt` in closed form: sign character, size
character, optional fraction digits, optional final newline. -/
def mkFmt (sign : Bool) (size : Nat) (frac : Option (List Char)) (nl : Bool) : String :=
  ⟨[(if sign then 's' else 'u'), Char.ofNat (48 + size)] ++
    (match frac with
     | none => []
     | some ds => '.' :: ds) ++
    (if nl then ['\n'] else [])⟩

/-! ## Machine types and settings bitmaps
(`src/pyftms/client/properties/machine_type.py`, `features.py`)

`MachineType` is a `Flag` with six one-bit members; `MachineSettings` is a
17-member `IntFlag`.  Both are modelled as `Nat` bitmaps with named
constants for the bits the claims mention.  Flag membership `F in mt` is
bit containment. -/

def mtTREADMILL : Nat := 1
def mtCROSS_TRAINER : Nat := 2
def mtSTEP_CLIMBER : Nat := 4
def mtSTAIR_CLIMBER : Nat := 8
def mtROWER : Nat := 16
def mtINDOOR_BIKE : Nat := 32

def stSPEED : Nat := 1
def stINCLINE : Nat := 2
def stRESISTANCE : Nat := 4
def stPOWER : Nat := 8

/-- All 17 named bits of `MachineSettings`; Python's `~flag` on an
`IntFlag` complements within this universe. -/
def stALL : Nat := 2 ^ 17 - 1

/-- Python `F in mt` on flags: every bit of `f` is set in `mt`. -/
def flagIn (f mt : Nat) : Bool := mt &&& f = f

/-- Python `~m` on a `MachineSettings` value: complement within the named
bits. -/
def stCompl (m : Nat) : Nat := stALL ^^^ (m &&& stALL)

/-- The settings-pruning `if/elif` chain of `read_features`
(`src/pyftms/client/properties/features.py`): the first matching machine
type applies, every later branch is skipped. -/
def pruneSettings (mt settings : Nat) : Nat :=
  if flagIn mtTREADMILL mt then
    settings &&& stCompl (stRESISTANCE ||| stPOWER)
  else if flagIn mtCROSS_TRAINER mt then
    settings &&& stCompl (stSPEED ||| stINCLINE)
  else if flagIn mtINDOOR_BIKE mt then
    settings &&& stCompl (stINCLINE ||| stRESISTANCE)
  else if flagIn mtROWER mt then
    settings &&& stCompl (stSPEED ||| stINCLINE ||| stRESISTANCE)
  else
    settings

/-! ## Advertisement parsing
(`src/pyftms/client/properties/machine_type.py`,
`get_machine_type_from_service_data`)

The service data (if any) is a byte string.  `MachineFlags` is a strict
one-member `Flag`, so `MachineFlags(b)` raises `ValueError` unless
`b < 2`; `MachineType` covers bits 0..5, so `MachineType(v)` raises
`ValueError` unless `v < 64` (composite values of valid bits are allowed).
`NotFitnessMachine(data?)` is `Except.error data?`; the returned
`MachineType` value is the `Nat` bitmap. -/

def getMachineTypeFromServiceData (dat : Option (List Nat)) : Except (Option (List Nat)) Nat :=
  match dat with
  | none => .error none
  | some data =>
    if data.length ≠ 3 then .error (some data)
    else
      let f := data.getD 0 0
      let t := data.getD 1 0 ||| data.getD 2 0
      if 2 ≤ f then .error (some data)          -- MachineFlags(data[0]) raises
      else if 64 ≤ t then .error (some data)    -- MachineType(...) raises
      else if f ≠ 0 ∧ t ≠ 0 then .ok t          -- `if mf and mt: return mt`
      else .error (some data)

/-! ## Bitmask-gated realtime decoding
(`src/pyftms/models/realtime_data/common.py`,
`RealtimeData._deserialize_asdict`)

The mask is read with the registered `"u2"` number serializer (so the u2
sentinel `0xFFFF` decodes to `None`, and the following `mask ^= 1` raises
`TypeError`).  The loop walks the declared fields in order, decoding a
field when the current low bit of the shifted mask is set, and breaks as
soon as the shifted mask reaches zero; the trailing `assert not src.read()`
requires the stream to be exhausted. -/

def u2spec : NumSpec := ⟨2, none, false⟩

/-- The `for field, serializer in cls._iter_fields_serializers():` loop.
Returns the decoded `(field index, value)` pairs and the remaining
stream.  `idx` is the index of the current head field. -/
def rtLoop : List NumSpec → Nat → List Nat → Nat → Option (List (Nat × Option ℚ) × List Nat)
  | [], _, src, _ => some ([], src)
  | sp :: rest, g, src, idx =>
    if g &&& 1 = 1 then
      match numDeserialize sp src with
      | none => none
      | some (v, src') =>
        if g >>> 1 = 0 then
          some ([(idx, v)], src')
        else
          match rtLoop rest (g >>> 1) src' (idx + 1) with
          | none => none
          | some (l, r) => some ((idx, v) :: l, r)
    else
      if g >>> 1 = 0 then
        some ([], src)
      else
        rtLoop rest (g >>> 1) src (idx + 1)

/-- `RealtimeData._deserialize_asdict` for a model with the given declared
fields; the result is the mask value together with the decoded fields. -/
def rtDeserialize (fields : List NumSpec) (input : List Nat) : Option (Nat × List (Nat × Option ℚ)) :=
  match numDeserialize u2spec input with
  | none => none                    -- EOFError from the u2 read
  | some (none, _) => none          -- mask sentinel: `mask ^= 1` on None raises
  | some (some q, rest) =>
    let m := Int.toNat q.num
    match rtLoop fields (m ^^^ 1) rest 0 with
    | none => none
    | some (kw, rest') =>
      if rest' = [] then some (m, kw) else none   -- `assert not src.read()`

/-! ## Realtime updater (`src/pyftms/client/backends/updater.py`)

The updater is generic in the decoded values: it only merges dictionaries,
tests truthiness and compares values.  Values are modelled as integers
(`0` falsy), keys as strings.  `Dict` mirrors an insertion-ordered Python
dict with unique keys. -/

abbrev Dict := List (String × Int)

/-- Python `d[k]` as an option. -/
def dlookup (d : Dict) (k : String) : Option Int :=
  match d.find? (fun p => p.1 = k) with
  | some p => some p.2
  | none => none

/-- Python `d[k] = v`: overwrite in place, or append a new key. -/
def dinsert (d : Dict) (k : String) (v : Int) : Dict :=
  if d.any (fun p => p.1 = k) then
    d.map (fun p => if p.1 = k then (k, v) else p)
  else
    d ++ [(k, v)]

/-- Python `d |= e`. -/
def dmerge (d e : Dict) : Dict :=
  e.foldl (fun a p => dinsert a p.1 p.2) d

/-- Keys with distinct names (invariant of every Python dict). -/
def dkeysNodup (d : Dict) : Prop := (d.map Prod.fst).Nodup

/-- `self._result.items() ^ self._prev.items()`: the symmetric difference
of the item sets, enumerated cur-side pairs first.  (Python iterates the
set in an unspecified order; the resulting dict content is
order-independent, see `buildDelta`.) -/
def symmDiffItems (cur prev : Dict) : List (String × Int) :=
  cur.filter (fun p => ¬ prev.contains p) ++ prev.filter (fun p => ¬ cur.contains p)

/-- One assignment of the dict comprehension
`{k: self._result[k] for k, _ in update}`: a key absent from `cur` raises
`KeyError` (modelled as `none`), which aborts the whole comprehension. -/
def deltaStep (cur : Dict) (acc : Option Dict) (p : String × Int) : Option Dict :=
  match acc with
  | none => none
  | some d =>
    match dlookup cur p.1 with
    | none => none
    | some v => some (dinsert d p.1 v)

/-- The dict comprehension `{k: self._result[k] for k, _ in update}` over
the symmetric-difference pairs. -/
def buildDelta (cur : Dict) (sdiff : List (String × Int)) : Option Dict :=
  sdiff.foldl (deltaStep cur) (some [])

/-- `DataUpdater` state: `_prev` and `_result`. -/
structure UpdState where
  prev : Dict
  result : Dict
deriving DecidableEq, Repr

/-- One notification: the flat decoded field map (`_asdict`, `None` fields
dropped) together with the `More Data` bit `data[0] & 1`. -/
structure Notif where
  parsed : Dict
  more : Bool
deriving DecidableEq, Repr

/-- `DataUpdater._on_notify`, given the already-decoded record.  Returns
the new state and the emitted update payload (if any); `none` models an
exception escaping the callback. -/
def onNotify (st : UpdState) (n : Notif) : Option (UpdState × Option Dict) :=
  let cur := dmerge st.result n.parsed
  if n.more then
    some (⟨st.prev, cur⟩, none)
  else if cur.any (fun p => p.2 ≠ 0) then
    match buildDelta cur (symmDiffItems cur st.prev) with
    | none => none
    | some delta =>
      if delta.isEmpty then
        some (⟨st.prev, []⟩, none)
      else
        some (⟨cur, []⟩, some delta)
  else
    some (⟨st.prev, []⟩, none)

/-- A whole sequence of notifications, collecting the emitted updates. -/
def processNotifs (st : UpdState) (ns : List Notif) : Option (UpdState × List Dict) :=
  ns.foldl
    (fun acc n =>
      match acc with
      | none => none
      | some (st', evs) =>
        match onNotify st' n with
        | none => none
        | some (st'', none) => some (st'', evs)
        | some (st'', some d) => some (st'', evs ++ [d]))
    (some (st, []))

/-! ## Control-point controller (`src/pyftms/client/backends/controller.py`)

Opcode and result values of `ControlCode` / `ResultCode`
(`src/pyftms/models/control_point.py`). -/

def opREQUEST_CONTROL : Nat := 0x00
def opRESET : Nat := 0x01
def opSPEED : Nat := 0x02
def opSTART_RESUME : Nat := 0x07
def opSTOP_PAUSE : Nat := 0x08
def opSPIN_DOWN : Nat := 0x13
def opRESPONSE : Nat := 0x80

def rcSUCCESS : Nat := 1
def rcNOT_PERMITTED : Nat := 5

/-- A value is a valid `ControlCode` member (strict `IntEnum`:
`0x00..0x14` and `0x80`). -/
def isControlCode (v : Nat) : Bool := v ≤ 0x14 ∨ v = 0x80

/-- A value is a valid `ResultCode` member (`1..5`). -/
def isResultCode (v : Nat) : Bool := 1 ≤ v ∧ v ≤ 5

/-- A `ControlModel` request as built by `ControlModel(code=code, **kwargs)`:
the opcode and the at-most-one non-`None` parameter field `(name, value)`. -/
structure CtrlRequest where
  code : Nat
  param : Option (String × ℚ)
deriving DecidableEq, Repr

/-- The `request.stop_pause` field: set when the caller passed the
`stop_pause` keyword. -/
def reqStopPause (req : CtrlRequest) : Option ℚ :=
  match req.param with
  | some p => if p.1 = "stop_pause" then some p.2 else none
  | none => none

/-- The `request.spin_down` field: set when the caller passed the
`spin_down` keyword. -/
def reqSpinDown (req : CtrlRequest) : Option ℚ :=
  match req.param with
  | some p => if p.1 = "spin_down" then some p.2 else none
  | none => none

/-- Event union emitted by the controller (`event.py`), reduced to the
constructors the controller can fire on the write path. -/
inductive CtrlEvent
  | control (id source : String)
  | setup (data : Option (String × ℚ)) (source : String)
  | spinDown (code : ℚ) (targetSpeed : Option (Option ℚ × Option ℚ))
deriving DecidableEq, Repr

/-- Errors escaping `write_command`. -/
inductive CtrlError
  | timeout       -- asyncio.TimeoutError from `asyncio.wait_for`
  | bleak         -- a transport `BleakError`
  | protocol      -- `ValueError("Response on another request?..")`
  | decodeErr     -- exception while decoding the indication or trailer
deriving DecidableEq, Repr

/-- Controller state relevant to the claims: `_auth` and `_subscribed`. -/
structure CtrlState where
  auth : Bool
  subscribed : Bool
deriving DecidableEq, Repr

/-- Outcome of one write-plus-await-indication attempt, as seen through
`asyncio.wait_for`: the deadline elapsed, the transport raised a
`BleakError`, or the indication future completed with raw bytes. -/
inductive Outcome
  | timeout
  | bleakErr
  | indication (resp : List Nat)
deriving DecidableEq, Repr

/-- `ControlIndicateModel._deserialize`: three `u1` fields
`(code, request_code, result_code)`.  A `0xFF` byte decodes to `None`
(u1 sentinel), which makes the model constructor fail; out-of-range enum
values raise `ValueError`.  Returns the fields and the unread rest. -/
def ctrlIndicateParse (bs : List Nat) : Option (Nat × Nat × Nat × List Nat) :=
  match numDeserialize ⟨1, none, false⟩ bs with
  | some (some a, r1) =>
    match numDeserialize ⟨1, none, false⟩ r1 with
    | some (some b, r2) =>
      match numDeserialize ⟨1, none, false⟩ r2 with
      | some (some c, r3) =>
        let av := Int.toNat a.num
        let bv := Int.toNat b.num
        let cv := Int.toNat c.num
        if isControlCode av ∧ isControlCode bv ∧ isResultCode cv then
          some (av, bv, cv, r3)
        else
          none
      | _ => none
    | _ => none
  | _ => none

/-- `_to_setup_event_data`: drop the `code` entry, keep the single
parameter, and strip a trailing `_N` from `target_time_N` names
(`if k[-1].isdecimal(): k = k[:-2]`). -/
def toSetupEventData (req : CtrlRequest) : Option (String × ℚ) :=
  match req.param with
  | none => none
  | some (k, v) =>
    match k.data.getLast? with
    | some c => if c.isDigit then some (⟨k.data.dropLast.dropLast⟩, v) else some (k, v)
    | none => some (k, v)

/-- `_simple_control_events` for the write path; the `STOP_PAUSE` case
converts `request.stop_pause` through the strict `StopPauseCode` enum
(`1 = STOP`, `2 = PAUSE`; anything else raises). -/
def simpleControlEvents (req : CtrlRequest) : Option (Option CtrlEvent) :=
  if req.code = opRESET then
    some (some (.control "reset" "callback"))
  else if req.code = opSTOP_PAUSE then
    match reqStopPause req with
    | some v =>
      if v = 1 then some (some (.control "stop" "callback"))
      else if v = 2 then some (some (.control "pause" "callback"))
      else none                       -- StopPauseCode(...) raises ValueError
    | none => none                    -- StopPauseCode(None) raises
  else if req.code = opSTART_RESUME then
    some (some (.control "start" "callback"))
  else
    some none

/-- The spin-down trailer: `bio.read(4)` after the three indication bytes;
empty means no target speeds, exactly four bytes decode two `u2.01`
values, and any other length fails (`EOFError` inside the serializer or
the trailing `assert`). -/
def spinDownTrailer (extra : List Nat) : Option (Option (Option ℚ × Option ℚ)) :=
  if extra.isEmpty then
    some none
  else
    match numDeserialize ⟨2, some (1/100), false⟩ (extra.take 4) with
    | some (v1, r1) =>
      match numDeserialize ⟨2, some (1/100), false⟩ r1 with
      | some (v2, _) => if extra.length = 4 then some (some (v1, v2)) else none
      | none => none
    | none => none

/-- One pass of `MachineController.write_command` past the auto-request
block: subscribe, write the request, await the indication (its fate given
by `outcome`), and process the response.  Returns the result (or raised
error), the new state and the emitted events. -/
def writeOnce (st : CtrlState) (req : CtrlRequest) (outcome : Outcome) :
    Except CtrlError Nat × CtrlState × List CtrlEvent :=
  let st0 : CtrlState := ⟨st.auth, true⟩       -- `await self.subscribe(cli)`
  match outcome with
  | .timeout => (.error .timeout, st0, [])     -- TimeoutError is not a BleakError
  | .bleakErr => (.error .bleak, ⟨false, false⟩, [])  -- `except BleakError: self.reset()`
  | .indication resp =>
    match ctrlIndicateParse resp with
    | none => (.error .decodeErr, st0, [])
    | some (_, requestCode, resultCode, rest) =>
      if requestCode ≠ req.code then
        (.error .protocol, st0, [])
      else if resultCode ≠ rcSUCCESS then
        (.ok resultCode, st0, [])
      else
        let st1 : CtrlState := if req.code = opRESET then ⟨false, st0.subscribed⟩ else st0
        if req.code = opREQUEST_CONTROL then
          (.ok rcSUCCESS, ⟨true, st0.subscribed⟩, [])
        else if (reqSpinDown req).isSome then
          match spinDownTrailer rest, reqSpinDown req with
          | some speeds, some code => (.ok rcSUCCESS, st1, [.spinDown code speeds])
          | _, _ => (.error .decodeErr, st1, [])
        else
          match simpleControlEvents req with
          | none => (.error .decodeErr, st1, [])
          | some (some ev) => (.ok rcSUCCESS, st1, [ev])
          | some none =>
            (.ok rcSUCCESS, st1, [.setup (toSetupEventData req) "callback"])

/-- `MachineController.write_command`: when not authorised and the request
is not `REQUEST_CONTROL`, first run `write_command(REQUEST_CONTROL)`
(whose returned result code is not inspected), then the request itself.
`o1` is the transport outcome of the first attempt actually made, `o2` of
the second (unused when only one attempt happens). -/
def writeCommand (st : CtrlState) (req : CtrlRequest) (o1 o2 : Outcome) :
    Except CtrlError Nat × CtrlState × List CtrlEvent :=
  if st.auth = false ∧ req.code ≠ opREQUEST_CONTROL then
    match writeOnce st ⟨opREQUEST_CONTROL, none⟩ o1 with
    | (.error e, st1, ev1) => (.error e, st1, ev1)
    | (.ok _, st1, ev1) =>
      match writeOnce st1 req o2 with
      | (r, st2, ev2) => (r, st2, ev1 ++ ev2)
  else
    writeOnce st req o1

/-! ## Closed forms used to state the claims -/

/-- Indices of the fields gated in by mask `g`: field `i` is decoded
exactly when bit `i` of `g` is set (claim C3's reading of the loop). -/
def gatedKeys (n g : Nat) : List Nat :=
  (List.range n).filter (fun i => g.testBit i)

/-- Total byte size of the gated-in fields. -/
def gatedSize (fields : List NumSpec) (g : Nat) : Nat :=
  ((gatedKeys fields.length g).map (fun i => (fields.map NumSpec.size).getD i 0)).sum

/-- Recursive companion of `gatedSize`, aligned with the loop structure. -/
def gatedSizeR : List NumSpec → Nat → Nat
  | [], _ => 0
  | sp :: rest, g => (if g.testBit 0 then sp.size else 0) + gatedSizeR rest (g >>> 1)

/-- Recursive companion of `gatedKeys`, aligned with the loop structure;
`idx` is the index of the head field. -/
def gatedKeysR : List NumSpec → Nat → Nat → List Nat
  | [], _, _ => []
  | _ :: rest, g, idx => (if g.testBit 0 then [idx] else []) ++ gatedKeysR rest (g >>> 1) (idx + 1)

/-- The tail (everything after the sign and size characters) of a format
string the pattern accepts: nothing, a final newline (Python's `$`
tolerates one), or a dot followed by one to eight digits and then the
anchor. -/
def fmtTail (tail : List Char) : Prop :=
  tail = [] ∨ tail = ['\n'] ∨
    ∃ ds nl, 1 ≤ ds.length ∧ ds.length ≤ 8 ∧ ds.all Char.isDigit = true ∧
      (nl = [] ∨ nl = ['\n']) ∧ tail = '.' :: (ds ++ nl)

/-! ## Helper lemmas -/

theorem testBit_land_stCompl (s m i : Nat) (hs : s < 2 ^ 17) (hm : m < 2 ^ 17) :
    (s &&& stCompl m).testBit i = (s.testBit i && !(m.testBit i)) := by
  have hall : ∀ j, Nat.testBit stALL j = decide (j < 17) := fun j =>
    Nat.testBit_two_pow_sub_one 17 j
  rcases Nat.lt_or_ge i 17 with h | h
  · simp [stCompl, Nat.testBit_land, Nat.testBit_xor, hall, h]
  · have hsi : s.testBit i = false :=
      Nat.testBit_eq_false_of_lt (lt_of_lt_of_le hs (Nat.pow_le_pow_right (by norm_num) h))
    have hmi : m.testBit i = false :=
      Nat.testBit_eq_false_of_lt (lt_of_lt_of_le hm (Nat.pow_le_pow_right (by norm_num) h))
    simp [Nat.testBit_land, hsi, hmi]

/-! ## Claim C2 — settings pruning by machine type -/

/-- Claim C2, corrected.  For a settings bitmap within the 17 named bits:
a TREADMILL clears exactly RESISTANCE and POWER, a CROSS_TRAINER clears
exactly SPEED and INCLINE, an INDOOR_BIKE clears exactly INCLINE and
RESISTANCE, and a ROWER clears exactly SPEED, INCLINE and RESISTANCE;
every other bit is unchanged. -/
theorem claim_C2_amended (s : Nat) (hs : s < 2 ^ 17) :
    (∀ i, (pruneSettings mtTREADMILL s).testBit i
        = (s.testBit i && !((stRESISTANCE ||| stPOWER).testBit i))) ∧
    (∀ i, (pruneSettings mtCROSS_TRAINER s).testBit i
        = (s.testBit i && !((stSPEED ||| stINCLINE).testBit i))) ∧
    (∀ i, (pruneSettings mtINDOOR_BIKE s).testBit i
        = (s.testBit i && !((stINCLINE ||| stRESISTANCE).testBit i))) ∧
    (∀ i, (pruneSettings mtROWER s).testBit i
        = (s.testBit i && !((stSPEED ||| stINCLINE ||| stRESISTANCE).testBit i))) := by
  refine ⟨fun i => ?_, fun i => ?_, fun i => ?_, fun i => ?_⟩
  · show (s &&& stCompl (stRESISTANCE ||| stPOWER)).testBit i = _
    exact testBit_land_stCompl s _ i hs (by decide)
  · show (s &&& stCompl (stSPEED ||| stINCLINE)).testBit i = _
    exact testBit_land_stCompl s _ i hs (by decide)
  · show (s &&& stCompl (stINCLINE ||| stRESISTANCE)).testBit i = _
    exact testBit_land_stCompl s _ i hs (by decide)
  · show (s &&& stCompl (stSPEED ||| stINCLINE ||| stRESISTANCE)).testBit i = _
    exact testBit_land_stCompl s _ i hs (by decide)

/-- Witness for `claim_C2_amended` at the concrete bitmap
`SPEED ||| INCLINE ||| RESISTANCE = 7`. -/
theorem claim_C2_witness :
    (7 : Nat) < 2 ^ 17 ∧
    (pruneSettings mtINDOOR_BIKE 7).testBit 0
      = ((7 : Nat).testBit 0 && !((stINCLINE ||| stRESISTANCE).testBit 0)) :=
  ⟨by decide, (claim_C2_amended 7 (by decide)).2.2.1 0⟩

/-- Counterexample to claim C2 as stated: the claim says INDOOR_BIKE
clears SPEED (the code keeps it and clears RESISTANCE instead) and that
ROWER clears only SPEED and INCLINE (the code also clears RESISTANCE). -/
theorem claim_C2_counterexample :
    pruneSettings mtINDOOR_BIKE stSPEED = stSPEED ∧ stSPEED ≠ 0 ∧
    pruneSettings mtROWER stRESISTANCE = 0 ∧ stRESISTANCE ≠ 0 := by
  decide

/-! ## Claim C5 — advertisement service-data parsing -/

/-- Claim C5, corrected.  The parser succeeds exactly on service data of
length exactly 3 whose flags byte equals 1 and whose ORed machine-type
bytes form a non-zero value inside the six known bits (composite values
included), returning that value; every other input fails with
`NotFitnessMachine` carrying the raw data when present. -/
theorem claim_C5_amended (dat : Option (List Nat)) :
    (∀ t, getMachineTypeFromServiceData dat = .ok t ↔
       ∃ d, dat = some d ∧ d.length = 3 ∧ d.getD 0 0 = 1 ∧
         d.getD 1 0 ||| d.getD 2 0 = t ∧ 1 ≤ t ∧ t ≤ 63) ∧
    (getMachineTypeFromServiceData dat = .error dat ∨
       ∃ t, getMachineTypeFromServiceData dat = .ok t) := by
  constructor
  · intro t
    cases dat with
    | none => simp [getMachineTypeFromServiceData]
    | some d =>
      simp only [getMachineTypeFromServiceData]
      constructor
      · intro h
        by_cases hlen : d.length = 3
        · rw [if_neg (by omega)] at h
          by_cases hf2 : 2 ≤ d.getD 0 0
          · rw [if_pos hf2] at h
            exact absurd h (by simp)
          · rw [if_neg hf2] at h
            by_cases ht64 : 64 ≤ d.getD 1 0 ||| d.getD 2 0
            · rw [if_pos ht64] at h
              exact absurd h (by simp)
            · rw [if_neg ht64] at h
              by_cases hft : d.getD 0 0 ≠ 0 ∧ d.getD 1 0 ||| d.getD 2 0 ≠ 0
              · rw [if_pos hft] at h
                injection h with h
                exact ⟨d, rfl, hlen, by omega, h, by omega, by omega⟩
              · rw [if_neg hft] at h
                exact absurd h (by simp)
        · rw [if_pos (by omega)] at h
          exact absurd h (by simp)
      · rintro ⟨d', hd, hlen, hf, ht, ht1, ht63⟩
        injection hd with hd
        subst hd
        rw [if_neg (by omega), if_neg (by omega), if_neg (by omega),
          if_pos ⟨by omega, by omega⟩]
        exact congrArg Except.ok ht
  · cases dat with
    | none => exact .inl rfl
    | some d =>
      simp only [getMachineTypeFromServiceData]
      split
      · exact .inl rfl
      · split
        · exact .inl rfl
        · split
          · exact .inl rfl
          · split
            · exact .inr ⟨_, rfl⟩
            · exact .inl rfl

/-- Witness for `claim_C5_amended`: the spec's own example
`[0x01, 0x01, 0x00]` parses to the TREADMILL bit. -/
theorem claim_C5_witness :
    getMachineTypeFromServiceData (some [1, 1, 0]) = .ok 1 :=
  ((claim_C5_amended (some [1, 1, 0])).1 1).mpr
    ⟨[1, 1, 0], rfl, rfl, rfl, by decide, by decide, by decide⟩

/-- Counterexample to claim C5 as stated: a 2-byte payload with flags bit
0 set and a valid single-bit type is rejected by the code (the claim says
length 2 succeeds), and a composite multi-bit type value is accepted and
returned (the claim says only single-bit types succeed). -/
theorem claim_C5_counterexample :
    getMachineTypeFromServiceData (some [1, 1]) = .error (some [1, 1]) ∧
    getMachineTypeFromServiceData (some [1, 3, 0]) = .ok 3 ∧
    (3 : Nat) ∉ [mtTREADMILL, mtCROSS_TRAINER, mtSTEP_CLIMBER,
      mtSTAIR_CLIMBER, mtROWER, mtINDOOR_BIKE] := by
  refine ⟨rfl, rfl, by decide⟩

/-! ## Claim C4 — timeout handling in write_command -/

/-- Claim C4, corrected.  When the composite write-plus-await-indication
exceeds the timeout, the call fails with `Timeout` and the pending
indication future is simply abandoned, but the auth flag is NOT cleared:
`except BleakError` does not catch `asyncio.TimeoutError`, so
`self.reset()` runs only for transport (`BleakError`) failures. -/
theorem claim_C4_amended (st : CtrlState) (req : CtrlRequest) (o2 : Outcome) :
    writeOnce st req .timeout = (.error .timeout, ⟨st.auth, true⟩, []) ∧
    writeOnce st req .bleakErr = (.error .bleak, ⟨false, false⟩, []) ∧
    (st.auth = false → req.code ≠ opREQUEST_CONTROL →
      writeCommand st req .timeout o2 = (.error .timeout, ⟨st.auth, true⟩, [])) := by
  refine ⟨rfl, rfl, fun h1 h2 => ?_⟩
  simp only [writeCommand, if_pos (And.intro h1 h2)]
  rfl

/-- Witness for `claim_C4_amended`: a timeout on the auto-request attempt
propagates with the auth flag untouched. -/
theorem claim_C4_witness :
    ((⟨false, true⟩ : CtrlState).auth = false ∧ opSPEED ≠ opREQUEST_CONTROL) ∧
    writeCommand ⟨false, true⟩ ⟨opSPEED, some ("target_speed", 10)⟩ .timeout .timeout
      = (.error .timeout, ⟨false, true⟩, []) :=
  ⟨⟨rfl, by decide⟩,
    (claim_C4_amended ⟨false, true⟩ ⟨opSPEED, some ("target_speed", 10)⟩ .timeout).2.2
      rfl (by decide)⟩

/-- Counterexample to claim C4 as stated: after a timeout with the auth
flag set, the flag is still set (the claim says it is cleared). -/
theorem claim_C4_counterexample :
    writeOnce ⟨true, true⟩ ⟨opSPEED, some ("target_speed", 10)⟩ .timeout
      = (.error .timeout, ⟨true, true⟩, []) ∧
    (⟨true, true⟩ : CtrlState).auth = true :=
  ⟨rfl, rfl⟩

/-! ## Claim C6 — auto-request of control before a set-target command -/

/-- Claim C6, confirmed.  Starting unauthorised, a `SET_SPEED v` command
first runs `REQUEST_CONTROL`; when both indications report SUCCESS the
auth flag ends up set and exactly one `Setup` event is emitted, with
source `callback` and payload `target_speed = v`. -/
theorem claim_C6 (st : CtrlState) (v : ℚ) (h : st.auth = false) :
    writeCommand st ⟨opSPEED, some ("target_speed", v)⟩
        (.indication [opRESPONSE, opREQUEST_CONTROL, rcSUCCESS])
        (.indication [opRESPONSE, opSPEED, rcSUCCESS])
      = (.ok rcSUCCESS, ⟨true, true⟩,
         [.setup (some ("target_speed", v)) "callback"]) := by
  obtain ⟨a, b⟩ := st
  cases h
  rfl

/-- Witness for `claim_C6` with `v = 10`. -/
theorem claim_C6_witness :
    (⟨false, false⟩ : CtrlState).auth = false ∧
    writeCommand ⟨false, false⟩ ⟨opSPEED, some ("target_speed", 10)⟩
        (.indication [opRESPONSE, opREQUEST_CONTROL, rcSUCCESS])
        (.indication [opRESPONSE, opSPEED, rcSUCCESS])
      = (.ok rcSUCCESS, ⟨true, true⟩,
         [.setup (some ("target_speed", 10)) "callback"]) :=
  ⟨rfl, claim_C6 ⟨false, false⟩ 10 rfl⟩

/-! ## Claim C10 — the auto-request's result code is discarded -/

/-- Claim C10, confirmed.  When the auto-issued `REQUEST_CONTROL` comes
back with any non-SUCCESS result code, `write_command` ignores that code
and proceeds exactly as a single write of the original request from the
(still unauthorised) state. -/
theorem claim_C10 (st : CtrlState) (req : CtrlRequest) (rc : Nat) (o2 : Outcome)
    (hauth : st.auth = false) (hreq : req.code ≠ opREQUEST_CONTROL)
    (hrc : isResultCode rc = true) (hrcS : rc ≠ rcSUCCESS) :
    writeCommand st req (.indication [opRESPONSE, opREQUEST_CONTROL, rc]) o2
      = writeOnce ⟨st.auth, true⟩ req o2 := by
  simp only [isResultCode, decide_eq_true_eq] at hrc
  obtain ⟨hlb, hub⟩ := hrc
  interval_cases rc
  · exact absurd rfl hrcS
  all_goals (simp only [writeCommand, if_pos (And.intro hauth hreq)]; rfl)

/-- Witness for `claim_C10`: `NOT_PERMITTED` on the auto-request, then a
successful `SET_SPEED`. -/
theorem claim_C10_witness :
    ((⟨false, false⟩ : CtrlState).auth = false ∧ opSPEED ≠ opREQUEST_CONTROL ∧
      isResultCode rcNOT_PERMITTED = true ∧ rcNOT_PERMITTED ≠ rcSUCCESS) ∧
    writeCommand ⟨false, false⟩ ⟨opSPEED, some ("target_speed", 10)⟩
        (.indication [opRESPONSE, opREQUEST_CONTROL, rcNOT_PERMITTED])
        (.indication [opRESPONSE, opSPEED, rcSUCCESS])
      = writeOnce ⟨(⟨false, false⟩ : CtrlState).auth, true⟩
          ⟨opSPEED, some ("target_speed", 10)⟩
          (.indication [opRESPONSE, opSPEED, rcSUCCESS]) :=
  ⟨⟨rfl, by decide, by decide, by decide⟩,
    claim_C10 ⟨false, false⟩ ⟨opSPEED, some ("target_speed", 10)⟩ rcNOT_PERMITTED
      (.indication [opRESPONSE, opSPEED, rcSUCCESS]) rfl (by decide) (by decide) (by decide)⟩

/-! ## Byte-level helper lemmas for the number codec -/

theorem toLEBytes_length (n v : Nat) : (toLEBytes n v).length = n := by
  induction n generalizing v with
  | zero => rfl
  | succ n ih => simp [toLEBytes, ih]

theorem readLE_toLEBytes (n v : Nat) (h : v < 2 ^ (8 * n)) :
    readLE (toLEBytes n v) = v := by
  induction n generalizing v with
  | zero =>
    have : v = 0 := by simpa using h
    simp [this, toLEBytes, readLE]
  | succ n ih =>
    have hsplit : 2 ^ (8 * (n + 1)) = 2 ^ (8 * n) * 256 := by
      have he : 8 * (n + 1) = 8 * n + 8 := by omega
      rw [he, pow_add]
      norm_num
    have h2 : v / 256 < 2 ^ (8 * n) := by
      rw [Nat.div_lt_iff_lt_mul (by norm_num)]
      omega
    simp [toLEBytes, readLE, ih _ h2]
    omega

/-! ## Claim C8 — the `Data Not Available` sentinel -/

/-- Claim C8, confirmed.  For every valid spec the sentinel is the
all-ones value of the chosen range (`2^(8*size)-1` unsigned,
`2^(8*size-1)-1` signed); decoding a full-width buffer whose little-endian
integer equals the sentinel yields the absent value, and encoding the
absent value writes exactly the sentinel's `size` little-endian bytes. -/
theorem claim_C8 (size : Nat) (sign : Bool) (factor : Option ℚ) (b : List Nat)
    (h1 : 1 ≤ size) (h8 : size ≤ 8) (hb : b.length = size)
    (hsent : intFromBytes sign b = ((noneVal ⟨size, factor, sign⟩ : Nat) : Int)) :
    noneVal ⟨size, factor, sign⟩
      = (if sign then 2 ^ (8 * size - 1) - 1 else 2 ^ (8 * size) - 1) ∧
    numDeserialize ⟨size, factor, sign⟩ b = some (none, []) ∧
    numSerialize ⟨size, factor, sign⟩ none
      = some (toLEBytes size (noneVal ⟨size, factor, sign⟩)) ∧
    (toLEBytes size (noneVal ⟨size, factor, sign⟩)).length = size := by
  refine ⟨?_, ?_, ?_, toLEBytes_length _ _⟩
  · unfold noneVal
    cases sign <;> simp
  · have hlt : ¬ b.length < size := by omega
    have htake : b.take size = b := by
      rw [← hb]
      exact List.take_length b
    have hdrop : b.drop size = [] := by
      rw [← hb]
      exact List.drop_length b
    simp [numDeserialize, hlt, htake, hsent, hdrop]
  · cases sign with
    | false =>
      have hup : ((noneVal ⟨size, factor, false⟩ : Nat) : Int) < 2 ^ (8 * size) := by
        have hpos : 0 < 2 ^ (8 * size) := Nat.pos_pow_of_pos _ (by norm_num)
        show ((2 ^ (8 * size - 0) - 1 : Nat) : Int) < (2:Int) ^ (8 * size)
        rw [Nat.sub_zero]
        push_cast [Nat.one_le_iff_ne_zero.mpr hpos.ne']
        omega
      show (if (0:Int) ≤ ↑(noneVal ⟨size, factor, false⟩) ∧
              (↑(noneVal ⟨size, factor, false⟩) : Int) < 2 ^ (8 * size) then
          some (toLEBytes size
            ((Int.emod ↑(noneVal ⟨size, factor, false⟩) (2 ^ (8 * size))).toNat))
        else none) = some (toLEBytes size (noneVal ⟨size, factor, false⟩))
      have hemod : Int.emod ((noneVal ⟨size, factor, false⟩ : Nat) : Int) (2 ^ (8 * size))
          = ((noneVal ⟨size, factor, false⟩ : Nat) : Int) :=
        Int.emod_eq_of_lt (Int.natCast_nonneg _) hup
      rw [if_pos ⟨Int.natCast_nonneg _, hup⟩, hemod, Int.toNat_natCast]
    | true =>
      have hhi : ((noneVal ⟨size, factor, true⟩ : Nat) : Int) < 2 ^ (8 * size - 1) := by
        have hpos : 0 < 2 ^ (8 * size - 1) := Nat.pos_pow_of_pos _ (by norm_num)
        show ((2 ^ (8 * size - 1) - 1 : Nat) : Int) < (2:Int) ^ (8 * size - 1)
        push_cast [Nat.one_le_iff_ne_zero.mpr hpos.ne']
        omega
      have hup : ((noneVal ⟨size, factor, true⟩ : Nat) : Int) < 2 ^ (8 * size) :=
        lt_of_lt_of_le hhi (pow_le_pow_right₀ (by norm_num) (by omega))
      have hlo : -(2:Int) ^ (8 * size - 1) ≤ ((noneVal ⟨size, factor, true⟩ : Nat) : Int) :=
        le_trans (neg_nonpos.mpr (pow_nonneg (by norm_num) _)) (Int.natCast_nonneg _)
      show (if -(2:Int) ^ (8 * size - 1) ≤ ↑(noneVal ⟨size, factor, true⟩) ∧
              (↑(noneVal ⟨size, factor, true⟩) : Int) < 2 ^ (8 * size - 1) then
          some (toLEBytes size
            ((Int.emod ↑(noneVal ⟨size, factor, true⟩) (2 ^ (8 * size))).toNat))
        else none) = some (toLEBytes size (noneVal ⟨size, factor, true⟩))
      have hemod : Int.emod ((noneVal ⟨size, factor, true⟩ : Nat) : Int) (2 ^ (8 * size))
          = ((noneVal ⟨size, factor, true⟩ : Nat) : Int) :=
        Int.emod_eq_of_lt (Int.natCast_nonneg _) hup
      rw [if_pos ⟨hlo, hhi⟩, hemod, Int.toNat_natCast]

/-- Witness for `claim_C8` at the s2 spec: buffer `FF 7F`, sentinel
`0x7FFF`. -/
theorem claim_C8_witness :
    ((1 ≤ 2 ∧ 2 ≤ 8) ∧ ([255, 127] : List Nat).length = 2 ∧
      intFromBytes true [255, 127] = ((noneVal ⟨2, none, true⟩ : Nat) : Int)) ∧
    noneVal ⟨2, none, true⟩
      = (if true then 2 ^ (8 * 2 - 1) - 1 else 2 ^ (8 * 2) - 1) ∧
    numDeserialize ⟨2, none, true⟩ [255, 127] = some (none, []) ∧
    numSerialize ⟨2, none, true⟩ none = some (toLEBytes 2 (noneVal ⟨2, none, true⟩)) ∧
    (toLEBytes 2 (noneVal ⟨2, none, true⟩)).length = 2 :=
  ⟨⟨⟨by decide, by decide⟩, by decide, by decide⟩,
    claim_C8 2 true none [255, 127] (by decide) (by decide) (by decide) (by decide)⟩

/-! ## List lemmas for the format-string characterisation -/

theorem endOk_eq_true_iff (l : List Char) : endOk l = true ↔ l = [] ∨ l = ['\n'] := by
  match l with
  | [] => simp [endOk]
  | [c] => simp [endOk]
  | a :: b :: t => simp [endOk]

theorem takeWhile_all (p : Char → Bool) (l : List Char) : (l.takeWhile p).all p = true := by
  induction l with
  | nil => rfl
  | cons c cs ih =>
    by_cases h : p c
    · simp [List.takeWhile, h, ih]
    · simp [List.takeWhile, h]

theorem take_takeWhile_length (p : Char → Bool) (l : List Char) :
    l.take (l.takeWhile p).length = l.takeWhile p := by
  induction l with
  | nil => rfl
  | cons c cs ih =>
    by_cases h : p c
    · simp [List.takeWhile, h, ih]
    · simp [List.takeWhile, h]

theorem takeWhile_digits_append (ds nl : List Char) (h : ds.all Char.isDigit = true)
    (hnl : nl = [] ∨ nl = ['\n']) :
    (ds ++ nl).takeWhile Char.isDigit = ds := by
  induction ds with
  | nil =>
    rcases hnl with rfl | rfl
    · rfl
    · decide
  | cons c cs ih =>
    simp only [List.all_cons, Bool.and_eq_true] at h
    simp [List.takeWhile, h.1, ih h.2]

/-! ## Claim C9 — format strings accepted by the number codec -/

/-- Claim C9, corrected.  `_parse_fmt` accepts exactly the ASCII strings
of shape `<sign><size>[.<digits>]` optionally followed by one final
newline (Python's `$` anchor), where the sign is `u` or `s`, the size
digit is `1..8` (not `1..4` as claimed) and the fraction has one to eight
digits; everything else raises the format error. -/
theorem claim_C9_amended (s : String) :
    (parseFmt s).isSome = true ↔
      ∃ c0 c1 tail, (c0 = 'u' ∨ c0 = 's') ∧ '1' ≤ c1 ∧ c1 ≤ '8' ∧
        fmtTail tail ∧ s.data = c0 :: c1 :: tail := by
  constructor
  · intro h
    rcases hd : s.data with _ | ⟨c0, _ | ⟨c1, rest⟩⟩
    · rw [parseFmt, hd] at h
      exact absurd h (by simp)
    · rw [parseFmt, hd] at h
      exact absurd h (by simp)
    · rw [parseFmt, hd] at h
      dsimp only at h
      by_cases hc : (c0 = 'u' ∨ c0 = 's') ∧ '1' ≤ c1 ∧ c1 ≤ '8'
      · rw [if_pos hc] at h
        by_cases he : endOk rest
        · rcases (endOk_eq_true_iff rest).mp he with rfl | rfl
          · exact ⟨c0, c1, [], hc.1, hc.2.1, hc.2.2, .inl rfl, rfl⟩
          · exact ⟨c0, c1, ['\n'], hc.1, hc.2.1, hc.2.2, .inr (.inl rfl), rfl⟩
        · rw [if_neg he] at h
          split at h
          next _ ds =>
            rw [Option.isSome_map'] at h
            simp only [parseFract] at h
            split at h
            next hf =>
              obtain ⟨hf1, hf8, hfe⟩ := hf
              have hds : ds = ds.takeWhile Char.isDigit
                  ++ ds.drop (ds.takeWhile Char.isDigit).length := by
                conv_lhs => rw [← List.take_append_drop
                  (ds.takeWhile Char.isDigit).length ds]
                rw [take_takeWhile_length]
              refine ⟨c0, c1, '.' :: ds, hc.1, hc.2.1, hc.2.2,
                .inr (.inr ⟨ds.takeWhile Char.isDigit,
                  ds.drop (ds.takeWhile Char.isDigit).length,
                  hf1, hf8, takeWhile_all _ _,
                  (endOk_eq_true_iff _).mp hfe, by rw [← hds]⟩), rfl⟩
            next => exact absurd h (by simp)
          next => exact absurd h (by simp)
      · rw [if_neg hc] at h
        exact absurd h (by simp)
  · rintro ⟨c0, c1, tail, h0, h1, h8, htail, hd⟩
    rw [parseFmt, hd]
    dsimp only
    rw [if_pos ⟨h0, h1, h8⟩]
    rcases htail with rfl | rfl | ⟨ds, nl, hlen1, hlen8, hdig, hnl, rfl⟩
    · simp [endOk]
    · simp [endOk]
    · obtain ⟨d, ds', rfl⟩ : ∃ d ds', ds = d :: ds' := by
        cases ds with
        | nil => simp at hlen1
        | cons d ds' => exact ⟨d, ds', rfl⟩
      have hne : ¬ endOk ('.' :: (d :: ds' ++ nl)) = true := by
        cases h : ds' ++ nl <;> simp [endOk]
      rw [if_neg hne]
      have hrun : ((d :: ds') ++ nl).takeWhile Char.isDigit = d :: ds' :=
        takeWhile_digits_append _ _ hdig hnl
      have hdrop : ((d :: ds') ++ nl).drop (d :: ds').length = nl :=
        List.drop_left _ _
      simp only [Option.isSome_map']
      simp only [parseFract]
      rw [hrun, hdrop, if_pos ⟨hlen1, hlen8, (endOk_eq_true_iff nl).mpr hnl⟩]
      rfl

/-- Witness for `claim_C9_amended`: the format `s2.1` is accepted. -/
theorem claim_C9_witness :
    (parseFmt "s2.1").isSome = true :=
  (claim_C9_amended "s2.1").mpr
    ⟨'s', '2', ['.', '1'], .inr rfl, by decide, by decide,
      .inr (.inr ⟨['1'], [], by decide, by decide, by decide, .inl rfl, rfl⟩), rfl⟩

/-- Counterexample to claim C9 as stated: the format `u5` (size 5, outside
the claimed `1..4`) is accepted by `_parse_fmt`, not rejected. -/
theorem claim_C9_counterexample :
    parseFmt "u5" = some ⟨5, none, false⟩ := by
  rfl

/-! ## Lemmas for the bitmask-gated loop -/

theorem and_one_eq_one_iff_testBit (g : Nat) : (g &&& 1 = 1) ↔ g.testBit 0 = true := by
  rw [Nat.and_one_is_mod]
  simp

theorem gatedSizeR_zero (fields : List NumSpec) : gatedSizeR fields 0 = 0 := by
  induction fields with
  | nil => rfl
  | cons sp rest ih => simp [gatedSizeR, Nat.zero_testBit, Nat.zero_shiftRight, ih]

theorem gatedKeysR_zero (fields : List NumSpec) (idx : Nat) : gatedKeysR fields 0 idx = [] := by
  induction fields generalizing idx with
  | nil => rfl
  | cons sp rest ih => simp [gatedKeysR, Nat.zero_testBit, Nat.zero_shiftRight, ih]

theorem numDeserialize_of_le (sp : NumSpec) (src : List Nat) (h : ¬ src.length < sp.size) :
    ∃ v, numDeserialize sp src = some (v, src.drop sp.size) := by
  unfold numDeserialize
  rw [if_neg h]
  dsimp only
  by_cases hv : intFromBytes sp.sign (src.take sp.size) = ((noneVal sp : Nat) : Int)
  · rw [if_pos hv]
    exact ⟨none, rfl⟩
  · rw [if_neg hv]
    rcases hf : factorTruthy sp with _ | f
    · exact ⟨_, rfl⟩
    · exact ⟨_, rfl⟩

theorem filter_range_succ (n : Nat) (p : Nat → Bool) :
    (List.range (n + 1)).filter p
      = (if p 0 then [0] else []) ++ ((List.range n).filter (fun i => p (i + 1))).map (· + 1) := by
  rw [List.range_succ_eq_map, List.filter_cons, List.filter_map]
  have hp : (p ∘ Nat.succ) = fun i => p (i + 1) := by
    funext i
    simp [Nat.succ_eq_add_one]
  have hm : List.map Nat.succ ((List.range n).filter fun i => p (i + 1))
      = List.map (· + 1) ((List.range n).filter fun i => p (i + 1)) := by
    simp [Nat.succ_eq_add_one]
  rw [hp, hm]
  by_cases h0 : p 0 = true
  · rw [if_pos h0, if_pos h0]
    rfl
  · rw [if_neg h0, if_neg h0]
    rfl

theorem gatedKeysR_closed (fields : List NumSpec) (g idx : Nat) :
    gatedKeysR fields g idx
      = ((List.range fields.length).filter (fun i => g.testBit i)).map (· + idx) := by
  induction fields generalizing g idx with
  | nil => rfl
  | cons sp rest ih =>
    show (if g.testBit 0 then [idx] else []) ++ gatedKeysR rest (g >>> 1) (idx + 1) = _
    rw [ih, List.length_cons, filter_range_succ, List.map_append, List.map_map]
    have h1 : ((List.range rest.length).filter fun i => (g >>> 1).testBit i)
        = ((List.range rest.length).filter fun i => g.testBit (i + 1)) := by
      refine List.filter_congr fun i _ => ?_
      rw [Nat.testBit_shiftRight, Nat.add_comm]
    have h2 : ((fun i => i + idx) ∘ fun i => i + 1) = fun i => i + (idx + 1) := by
      funext i
      show i + 1 + idx = i + (idx + 1)
      omega
    have h3 : (List.map (fun i => i + idx) (if g.testBit 0 then [0] else []))
        = (if g.testBit 0 then [idx] else []) := by
      by_cases hb : g.testBit 0 = true <;> simp [hb]
    rw [h1, h2, h3]

theorem gatedSizeR_closed (fields : List NumSpec) (g : Nat) :
    gatedSizeR fields g = gatedSize fields g := by
  induction fields generalizing g with
  | nil => rfl
  | cons sp rest ih =>
    show (if g.testBit 0 then sp.size else 0) + gatedSizeR rest (g >>> 1) = _
    unfold gatedSize gatedKeys
    rw [List.length_cons, filter_range_succ, List.map_append, List.sum_append, List.map_map]
    have h1 : ((List.range rest.length).filter fun i => g.testBit (i + 1))
        = ((List.range rest.length).filter fun i => (g >>> 1).testBit i) := by
      refine List.filter_congr fun i _ => ?_
      rw [Nat.testBit_shiftRight, Nat.add_comm]
    have h2 : ((fun i => ((sp :: rest).map NumSpec.size).getD i 0) ∘ fun i => i + 1)
        = fun i => (rest.map NumSpec.size).getD i 0 := by
      funext i
      simp [List.getD_cons_succ]
    have h3 : ((if g.testBit 0 then [0] else []).map
          fun i => ((sp :: rest).map NumSpec.size).getD i 0).sum
        = (if g.testBit 0 then sp.size else 0) := by
      by_cases hb : g.testBit 0 = true <;> simp [hb]
    rw [h1, h2, h3, ih]
    rfl

theorem rtLoop_spec (fields : List NumSpec) (g : Nat) (src : List Nat) (idx : Nat) :
    (src.length < gatedSizeR fields g → rtLoop fields g src idx = none) ∧
    (gatedSizeR fields g ≤ src.length →
      ∃ kw, rtLoop fields g src idx = some (kw, src.drop (gatedSizeR fields g)) ∧
        kw.map Prod.fst = gatedKeysR fields g idx) := by
  induction fields generalizing g src idx with
  | nil =>
    refine ⟨fun h => absurd h (by simp [gatedSizeR]), fun _ => ⟨[], ?_, rfl⟩⟩
    simp [rtLoop, gatedSizeR]
  | cons sp rest ih =>
    by_cases hg : g &&& 1 = 1
    · have hbit : g.testBit 0 = true := (and_one_eq_one_iff_testBit g).mp hg
      have hsz : gatedSizeR (sp :: rest) g = sp.size + gatedSizeR rest (g >>> 1) := by
        show (if g.testBit 0 then sp.size else 0) + _ = _
        rw [if_pos hbit]
      by_cases hlen : src.length < sp.size
      · have hnone : numDeserialize sp src = none := by
          unfold numDeserialize
          rw [if_pos hlen]
        refine ⟨fun _ => ?_, fun hge => absurd hge (by omega)⟩
        show (if g &&& 1 = 1 then _ else _) = none
        rw [if_pos hg, hnone]
      · obtain ⟨v, hv⟩ := numDeserialize_of_le sp src hlen
        have hdlen : (src.drop sp.size).length = src.length - sp.size := List.length_drop _ _
        by_cases h0 : g >>> 1 = 0
        · have hz : gatedSizeR rest (g >>> 1) = 0 := by rw [h0, gatedSizeR_zero]
          have hres : rtLoop (sp :: rest) g src idx = some ([(idx, v)], src.drop sp.size) := by
            show (if g &&& 1 = 1 then _ else _) = _
            rw [if_pos hg, hv]
            show (if g >>> 1 = 0 then _ else _) = _
            rw [if_pos h0]
          refine ⟨fun habs => absurd habs (by omega), fun _ => ⟨[(idx, v)], ?_, ?_⟩⟩
          · rw [hres, hsz, hz, Nat.add_zero]
          · show [idx] = gatedKeysR (sp :: rest) g idx
            show [idx] = (if g.testBit 0 then [idx] else []) ++ gatedKeysR rest (g >>> 1) (idx + 1)
            rw [if_pos hbit, h0, gatedKeysR_zero]
            rfl
        · have hres : ∀ o, rtLoop rest (g >>> 1) (src.drop sp.size) (idx + 1) = o →
              rtLoop (sp :: rest) g src idx
                = (match o with
                  | none => none
                  | some (l, r) => some ((idx, v) :: l, r)) := by
            intro o ho
            show (if g &&& 1 = 1 then _ else _) = _
            rw [if_pos hg, hv]
            show (if g >>> 1 = 0 then _ else _) = _
            rw [if_neg h0, ho]
          constructor
          · intro habs
            have : (src.drop sp.size).length < gatedSizeR rest (g >>> 1) := by omega
            rw [hres none ((ih (g >>> 1) (src.drop sp.size) (idx + 1)).1 this)]
          · intro hge
            have hge2 : gatedSizeR rest (g >>> 1) ≤ (src.drop sp.size).length := by omega
            obtain ⟨kw, hkw, hkeys⟩ := (ih (g >>> 1) (src.drop sp.size) (idx + 1)).2 hge2
            refine ⟨(idx, v) :: kw, ?_, ?_⟩
            · rw [hres _ hkw]
              rw [List.drop_drop, hsz]
            · show idx :: kw.map Prod.fst = gatedKeysR (sp :: rest) g idx
              rw [hkeys]
              show _ = (if g.testBit 0 then [idx] else []) ++ _
              rw [if_pos hbit]
              rfl
    · have hbit : g.testBit 0 = false := by
        rcases Bool.eq_false_or_eq_true (g.testBit 0) with hb | hb
        · exact absurd ((and_one_eq_one_iff_testBit g).mpr hb) hg
        · exact hb
      have hsz : gatedSizeR (sp :: rest) g = gatedSizeR rest (g >>> 1) := by
        show (if g.testBit 0 then sp.size else 0) + _ = _
        rw [hbit]
        simp
      have hkeyshape : gatedKeysR (sp :: rest) g idx = gatedKeysR rest (g >>> 1) (idx + 1) := by
        show (if g.testBit 0 then [idx] else []) ++ _ = _
        rw [hbit]
        simp
      by_cases h0 : g >>> 1 = 0
      · have hz : gatedSizeR rest (g >>> 1) = 0 := by rw [h0, gatedSizeR_zero]
        have hres : rtLoop (sp :: rest) g src idx = some ([], src) := by
          show (if g &&& 1 = 1 then _ else _) = _
          rw [if_neg hg]
          show (if g >>> 1 = 0 then _ else _) = _
          rw [if_pos h0]
        refine ⟨fun habs => absurd habs (by omega), fun _ => ⟨[], ?_, ?_⟩⟩
        · rw [hres, hsz, hz, List.drop_zero]
        · rw [hkeyshape, h0, gatedKeysR_zero]
          rfl
      · have hres : rtLoop (sp :: rest) g src idx = rtLoop rest (g >>> 1) src (idx + 1) := by
          show (if g &&& 1 = 1 then _ else _) = _
          rw [if_neg hg]
          show (if g >>> 1 = 0 then _ else _) = _
          rw [if_neg h0]
        constructor
        · intro habs
          rw [hres]
          exact (ih (g >>> 1) src (idx + 1)).1 (by omega)
        · intro hge
          obtain ⟨kw, hkw, hkeys⟩ := (ih (g >>> 1) src (idx + 1)).2 (by omega)
          exact ⟨kw, by rw [hres, hkw, hsz], by rw [hkeys, hkeyshape]⟩

/-- The registered `"u2"` serializer on a stream of at least two bytes:
the mask bytes are combined little-endian, and `0xFFFF` is the sentinel. -/
theorem numDeserialize_u2 (a b : Nat) (t : List Nat) :
    numDeserialize u2spec (a :: b :: t)
      = (if a + 256 * b = 65535 then some (none, t)
         else some (some ((a + 256 * b : Nat) : ℚ), t)) := by
  have hr : readLE [a, b] = a + 256 * b := by
    show a + 256 * (b + 256 * 0) = a + 256 * b
    omega
  have hfb : intFromBytes false [a, b] = ((a + 256 * b : Nat) : Int) := by
    show ((readLE [a, b] : Nat) : Int) = ((a + 256 * b : Nat) : Int)
    rw [hr]
  have hlen2 : ¬ (a :: b :: t).length < u2spec.size := by
    simp [u2spec]
  unfold numDeserialize
  rw [if_neg hlen2]
  dsimp only
  rw [show intFromBytes u2spec.sign ((a :: b :: t).take u2spec.size)
        = ((a + 256 * b : Nat) : Int) from hfb]
  by_cases hs : a + 256 * b = 65535
  · rw [if_pos (show ((a + 256 * b : Nat) : Int) = ((noneVal u2spec : Nat) : Int) from
      Int.natCast_inj.mpr hs), if_pos hs]
    rfl
  · rw [if_neg (show ¬ ((a + 256 * b : Nat) : Int) = ((noneVal u2spec : Nat) : Int) from
      fun hcast => hs (Int.natCast_inj.mp hcast)), if_neg hs]
    show some (some (((a + 256 * b : Nat) : Int) : ℚ), t) = _
    norm_cast

/-! ## Claim C3 — bitmask-gated realtime decoding -/

/-- Claim C3, corrected.  The decoder reads the two mask bytes
little-endian into `M`, and — unless `M = 0xFFFF`, where the `"u2"`
serializer's sentinel turns the mask into `None` and the decode fails —
gates field `i` by bit `i` of `G = M ^^^ 1`: decoding succeeds exactly
when the input holds the two mask bytes plus exactly the gated fields'
bytes (strict exhaustion), and then the decoded field indices are
precisely those whose bit of `G` is set. -/
theorem claim_C3_amended (fields : List NumSpec) (input : List Nat)
    (hlen : 2 ≤ input.length) :
    (input.getD 0 0 + 256 * input.getD 1 0 = 65535 →
      rtDeserialize fields input = none) ∧
    (input.getD 0 0 + 256 * input.getD 1 0 ≠ 65535 →
      (((rtDeserialize fields input).isSome = true) ↔
        input.length = 2 + gatedSize fields
          ((input.getD 0 0 + 256 * input.getD 1 0) ^^^ 1)) ∧
      (∀ m kw, rtDeserialize fields input = some (m, kw) →
        m = input.getD 0 0 + 256 * input.getD 1 0 ∧
        kw.map Prod.fst = (List.range fields.length).filter
          (fun i => ((input.getD 0 0 + 256 * input.getD 1 0) ^^^ 1).testBit i))) := by
  rcases input with _ | ⟨a, _ | ⟨b, t⟩⟩
  · simp at hlen
  · simp at hlen
  · simp only [List.getD_cons_zero, List.getD_cons_succ]
    constructor
    · intro hM
      unfold rtDeserialize
      rw [numDeserialize_u2, if_pos hM]
    · intro hM
      have hm : ((a + 256 * b : Nat) : ℚ).num.toNat = a + 256 * b := by
        rw [Rat.num_natCast]
        exact Int.toNat_natCast _
      have hlen3 : (a :: b :: t).length = t.length + 2 := by simp
      obtain ⟨hnone, hsome⟩ := rtLoop_spec fields ((a + 256 * b) ^^^ 1) t 0
      have hres : rtDeserialize fields (a :: b :: t)
          = (match rtLoop fields ((a + 256 * b) ^^^ 1) t 0 with
             | none => none
             | some (kw, rest') =>
                if rest' = [] then some (a + 256 * b, kw) else none) := by
        unfold rtDeserialize
        rw [numDeserialize_u2, if_neg hM]
        dsimp only
        rw [hm]
      by_cases hS : gatedSizeR fields ((a + 256 * b) ^^^ 1) ≤ t.length
      · obtain ⟨kw, hkw, hkeys⟩ := hsome hS
        rw [hkw] at hres
        dsimp only at hres
        by_cases hEx : t.drop (gatedSizeR fields ((a + 256 * b) ^^^ 1)) = []
        · rw [if_pos hEx] at hres
          have hteq : t.length = gatedSizeR fields ((a + 256 * b) ^^^ 1) := by
            have := List.drop_eq_nil_iff.mp hEx
            omega
          constructor
          · rw [hres]
            simp only [Option.isSome_some, true_iff]
            rw [hlen3, ← gatedSizeR_closed]
            omega
          · intro m kw' hmk
            rw [hres] at hmk
            injection hmk with hmk
            injection hmk with hmk1 hmk2
            subst hmk1
            subst hmk2
            refine ⟨rfl, ?_⟩
            rw [hkeys, gatedKeysR_closed]
            have : ((List.range fields.length).filter
                (fun i => ((a + 256 * b) ^^^ 1).testBit i)).map (· + 0)
                = (List.range fields.length).filter
                  (fun i => ((a + 256 * b) ^^^ 1).testBit i) := by
              simp
            rw [this]
        · rw [if_neg hEx] at hres
          have hteq : t.length ≠ gatedSizeR fields ((a + 256 * b) ^^^ 1) := by
            intro habs
            exact hEx (List.drop_eq_nil_iff.mpr (by omega))
          constructor
          · rw [hres]
            simp only [Option.isSome_none, Bool.false_eq_true, false_iff]
            rw [hlen3, ← gatedSizeR_closed]
            omega
          · intro m kw' hmk
            rw [hres] at hmk
            cases hmk
      · rw [hnone (by omega)] at hres
        constructor
        · rw [hres]
          simp only [Option.isSome_none, Bool.false_eq_true, false_iff]
          rw [hlen3, ← gatedSizeR_closed]
          omega
        · intro m kw' hmk
          rw [hres] at hmk
          cases hmk

/-- Witness for `claim_C3_amended`: two one-byte fields, mask `0x0002`
(`G = 3`, both fields gated in), four input bytes. -/
theorem claim_C3_witness :
    2 ≤ ([2, 0, 7, 8] : List Nat).length ∧
    (([2, 0, 7, 8] : List Nat).getD 0 0 + 256 * ([2, 0, 7, 8] : List Nat).getD 1 0 = 65535 →
      rtDeserialize [⟨1, none, false⟩, ⟨1, none, false⟩] [2, 0, 7, 8] = none) ∧
    (([2, 0, 7, 8] : List Nat).getD 0 0 + 256 * ([2, 0, 7, 8] : List Nat).getD 1 0 ≠ 65535 →
      (((rtDeserialize [⟨1, none, false⟩, ⟨1, none, false⟩] [2, 0, 7, 8]).isSome = true) ↔
        ([2, 0, 7, 8] : List Nat).length
          = 2 + gatedSize [⟨1, none, false⟩, ⟨1, none, false⟩]
            ((([2, 0, 7, 8] : List Nat).getD 0 0
              + 256 * ([2, 0, 7, 8] : List Nat).getD 1 0) ^^^ 1)) ∧
      (∀ m kw, rtDeserialize [⟨1, none, false⟩, ⟨1, none, false⟩] [2, 0, 7, 8] = some (m, kw) →
        m = ([2, 0, 7, 8] : List Nat).getD 0 0 + 256 * ([2, 0, 7, 8] : List Nat).getD 1 0 ∧
        kw.map Prod.fst = (List.range ([⟨1, none, false⟩, ⟨1, none, false⟩] : List NumSpec).length).filter
          (fun i => ((([2, 0, 7, 8] : List Nat).getD 0 0
            + 256 * ([2, 0, 7, 8] : List Nat).getD 1 0) ^^^ 1).testBit i))) :=
  ⟨by decide, claim_C3_amended [⟨1, none, false⟩, ⟨1, none, false⟩] [2, 0, 7, 8] (by decide)⟩

/-- Counterexample to claim C3 as stated: with mask bytes `FF FF`
(`M = 0xFFFF`, `G = 0xFFFE`) and a single declared one-byte field, no
field is gated in and the stream is exhausted, so the claim predicts a
successful decode; the code instead fails, because the mask is read
through the `"u2"` number serializer whose sentinel `0xFFFF` becomes
`None` and `mask ^= 1` then raises `TypeError`. -/
theorem claim_C3_counterexample :
    rtDeserialize [⟨1, none, false⟩] [255, 255] = none ∧
    ([255, 255] : List Nat).length = 2 + gatedSize [⟨1, none, false⟩] (65535 ^^^ 1) := by
  constructor
  · rfl
  · decide

/-! ## Dictionary lemmas for the realtime updater -/

theorem mem_key_unique (d : Dict) (hnd : dkeysNodup d) {k : String} {v w : Int}
    (h1 : (k, v) ∈ d) (h2 : (k, w) ∈ d) : v = w := by
  induction d with
  | nil => cases h1
  | cons p rest ih =>
    unfold dkeysNodup at hnd
    rw [List.map_cons, List.nodup_cons] at hnd
    rcases List.mem_cons.mp h1 with rfl | h1t
    · rcases List.mem_cons.mp h2 with h2h | h2t
      · exact (congrArg Prod.snd h2h.symm)
      · exact absurd (List.mem_map.mpr ⟨(k, w), h2t, rfl⟩) hnd.1
    · rcases List.mem_cons.mp h2 with rfl | h2t
      · exact absurd (List.mem_map.mpr ⟨(k, v), h1t, rfl⟩) hnd.1
      · exact ih hnd.2 h1t h2t

theorem dlookup_of_mem {d : Dict} (hnd : dkeysNodup d) {k : String} {v : Int}
    (h : (k, v) ∈ d) : dlookup d k = some v := by
  induction d with
  | nil => cases h
  | cons p rest ih =>
    unfold dkeysNodup at hnd
    rw [List.map_cons, List.nodup_cons] at hnd
    unfold dlookup
    rw [List.find?_cons]
    by_cases hp : p.1 = k
    · have hres : (decide (p.1 = k)) = true := decide_eq_true hp
      rw [hres]
      rcases List.mem_cons.mp h with rfl | ht
      · rfl
      · exact absurd (List.mem_map.mpr ⟨(k, v), ht, hp.symm⟩) hnd.1
    · have hres : (decide (p.1 = k)) = false := decide_eq_false hp
      rw [hres]
      rcases List.mem_cons.mp h with rfl | ht
      · exact absurd rfl hp
      · exact ih hnd.2 ht

theorem dlookup_mem {d : Dict} {k : String} {v : Int}
    (h : dlookup d k = some v) : (k, v) ∈ d := by
  unfold dlookup at h
  rcases hf : d.find? (fun p => p.1 = k) with _ | q
  · rw [hf] at h
    cases h
  · rw [hf] at h
    injection h with h
    have hq1 : q.1 = k := by
      have := List.find?_some hf
      simpa using this
    have hqm : q ∈ d := List.mem_of_find?_eq_some hf
    have : q = (k, v) := by
      rw [Prod.ext_iff]
      exact ⟨hq1, h⟩
    rw [← this]
    exact hqm

theorem dlookup_none_iff (d : Dict) (k : String) :
    dlookup d k = none ↔ ∀ p ∈ d, p.1 ≠ k := by
  constructor
  · intro h p hp hpk
    unfold dlookup at h
    rcases hf : d.find? (fun p => p.1 = k) with _ | q
    · rw [List.find?_eq_none] at hf
      exact hf p hp (decide_eq_true hpk)
    · rw [hf] at h
      cases h
  · intro hall
    unfold dlookup
    rcases hf : d.find? (fun p => p.1 = k) with _ | q
    · rw [hf]
    · have hq1 : q.1 = k := by
        have := List.find?_some hf
        simpa using this
      exact absurd hq1 (hall q (List.mem_of_find?_eq_some hf))

theorem dinsert_not_mem {d : Dict} {k : String} (v : Int)
    (h : ∀ p ∈ d, p.1 ≠ k) : dinsert d k v = d ++ [(k, v)] := by
  unfold dinsert
  rw [if_neg]
  intro hany
  obtain ⟨p, hp, hpk⟩ := List.any_eq_true.mp hany
  exact (h p hp) (of_decide_eq_true hpk)

theorem dinsert_mem_same {d : Dict} (hnd : dkeysNodup d) {k : String} {v : Int}
    (h : (k, v) ∈ d) : dinsert d k v = d := by
  unfold dinsert
  rw [if_pos (List.any_eq_true.mpr ⟨(k, v), h, decide_eq_true rfl⟩)]
  have : ∀ p ∈ d, (if p.1 = k then (k, v) else p) = p := by
    intro p hp
    by_cases hpk : p.1 = k
    · rw [if_pos hpk]
      have hp2 : p.2 = v := mem_key_unique d hnd (hpk ▸ hp) h
      rw [Prod.ext_iff]
      exact ⟨hpk.symm, hp2.symm⟩
    · rw [if_neg hpk]
  rw [List.map_congr_left this]
  exact List.map_id' d

theorem dinsert_keys_nodup {d : Dict} (hnd : dkeysNodup d) (k : String) (v : Int) :
    dkeysNodup (dinsert d k v) := by
  unfold dinsert
  by_cases hany : d.any (fun p => p.1 = k) = true
  · rw [if_pos hany]
    unfold dkeysNodup
    have : (d.map (fun p => if p.1 = k then (k, v) else p)).map Prod.fst = d.map Prod.fst := by
      rw [List.map_map]
      refine List.map_congr_left fun p _ => ?_
      by_cases hpk : p.1 = k
      · simp [hpk]
      · simp [hpk]
    rw [this]
    exact hnd
  · rw [if_neg hany]
    unfold dkeysNodup
    rw [List.map_append, List.nodup_append]
    refine ⟨hnd, by simp, ?_⟩
    intro x hx hx2
    simp only [List.map_cons, List.map_nil, List.mem_singleton] at hx2
    subst hx2
    obtain ⟨p, hp, hpk⟩ := List.mem_map.mp hx
    exact hany (List.any_eq_true.mpr ⟨p, hp, decide_eq_true hpk⟩)

theorem dmerge_keys_nodup {d : Dict} (hnd : dkeysNodup d) (e : Dict) :
    dkeysNodup (dmerge d e) := by
  induction e generalizing d with
  | nil => exact hnd
  | cons p rest ih =>
    unfold dmerge
    rw [List.foldl_cons]
    exact ih (dinsert_keys_nodup hnd p.1 p.2)

/-! ## Fold lemmas for the delta comprehension -/

theorem foldl_deltaStep_none (cur : Dict) (l : List (String × Int)) :
    l.foldl (deltaStep cur) none = none := by
  induction l with
  | nil => rfl
  | cons p rest ih =>
    rw [List.foldl_cons]
    exact ih

theorem foldl_deltaStep_missing (cur : Dict) (l : List (String × Int))
    (h : ∃ p ∈ l, dlookup cur p.1 = none) (acc : Dict) :
    l.foldl (deltaStep cur) (some acc) = none := by
  induction l generalizing acc with
  | nil =>
    obtain ⟨p, hp, _⟩ := h
    cases hp
  | cons p0 rest ih =>
    rw [List.foldl_cons]
    obtain ⟨p, hpm, hpl⟩ := h
    rcases List.mem_cons.mp hpm with rfl | hpt
    · have hstep : deltaStep cur (some acc) p = none := by
        unfold deltaStep
        rw [hpl]
      rw [hstep, foldl_deltaStep_none]
    · rcases hl0 : dlookup cur p0.1 with _ | v
      · have hstep : deltaStep cur (some acc) p0 = none := by
          unfold deltaStep
          rw [hl0]
        rw [hstep, foldl_deltaStep_none]
      · have hstep : deltaStep cur (some acc) p0 = some (dinsert acc p0.1 v) := by
          unfold deltaStep
          rw [hl0]
        rw [hstep]
        exact ih ⟨p, hpt, hpl⟩ _

theorem foldl_deltaStep_append_new (cur : Dict) (hcur : dkeysNodup cur)
    (L : List (String × Int)) :
    ∀ acc : Dict, (∀ p ∈ L, p ∈ cur) → dkeysNodup L →
      (∀ p ∈ L, ∀ q ∈ acc, q.1 ≠ p.1) →
      L.foldl (deltaStep cur) (some acc) = some (acc ++ L) := by
  induction L with
  | nil =>
    intro acc _ _ _
    simp
  | cons p rest ih =>
    intro acc hLcur hLnd hdisj
    rw [List.foldl_cons]
    have hlook : dlookup cur p.1 = some p.2 := by
      have hm : (p.1, p.2) ∈ cur := by
        simpa using hLcur p (List.mem_cons_self p rest)
      exact dlookup_of_mem hcur hm
    have hstep : deltaStep cur (some acc) p = some (acc ++ [(p.1, p.2)]) := by
      unfold deltaStep
      rw [hlook]
      dsimp only
      rw [dinsert_not_mem _ (fun q hq => hdisj p (List.mem_cons_self p rest) q hq)]
    rw [hstep]
    unfold dkeysNodup at hLnd
    rw [List.map_cons, List.nodup_cons] at hLnd
    have hrec := ih (acc ++ [(p.1, p.2)])
      (fun q hq => hLcur q (List.mem_cons_of_mem p hq)) hLnd.2 ?_
    · rw [hrec]
      simp
    · intro r hr q hq
      rcases List.mem_append.mp hq with hqa | hqp
      · exact hdisj r (List.mem_cons_of_mem p hr) q hqa
      · rw [List.mem_singleton] at hqp
        subst hqp
        intro habs
        exact hLnd.1 (List.mem_map.mpr ⟨r, hr, habs.symm⟩)

theorem foldl_deltaStep_fixed (cur A : Dict) (hA : dkeysNodup A)
    (B : List (String × Int))
    (hB : ∀ p ∈ B, ∃ w, dlookup cur p.1 = some w ∧ (p.1, w) ∈ A) :
    B.foldl (deltaStep cur) (some A) = some A := by
  induction B with
  | nil => rfl
  | cons p rest ih =>
    rw [List.foldl_cons]
    obtain ⟨w, hw, hwA⟩ := hB p (List.mem_cons_self p rest)
    have hstep : deltaStep cur (some A) p = some A := by
      unfold deltaStep
      rw [hw]
      dsimp only
      rw [dinsert_mem_same hA hwA]
    rw [hstep]
    exact ih (fun q hq => hB q (List.mem_cons_of_mem p hq))

/-- In the covered case (every key of `prev` occurs in `cur`), the
comprehension over the symmetric difference builds exactly the entries of
`cur` that differ from `prev`. -/
theorem buildDelta_covered (cur prev : Dict) (hcur : dkeysNodup cur)
    (hprev : dkeysNodup prev)
    (hcov : ∀ p ∈ prev, dlookup cur p.1 ≠ none) :
    buildDelta cur (symmDiffItems cur prev)
      = some (cur.filter (fun p => ¬ prev.contains p)) := by
  unfold buildDelta symmDiffItems
  rw [List.foldl_append]
  have hstep1 : (cur.filter (fun p => ¬ prev.contains p)).foldl (deltaStep cur) (some [])
      = some (cur.filter (fun p => ¬ prev.contains p)) := by
    have := foldl_deltaStep_append_new cur hcur (cur.filter (fun p => ¬ prev.contains p)) []
      (fun p hp => (List.mem_filter.mp hp).1)
      (List.Nodup.sublist (List.Sublist.map Prod.fst (List.filter_sublist cur)) hcur)
      (fun p _ q hq => absurd hq (List.not_mem_nil q))
    simpa using this
  rw [hstep1]
  refine foldl_deltaStep_fixed cur _ (List.Nodup.sublist
    (List.Sublist.map Prod.fst (List.filter_sublist cur)) hcur) _ ?_
  intro p hp
  obtain ⟨hpprev, hpnc⟩ := List.mem_filter.mp hp
  have hpnc : ¬ cur.contains p = true := by simpa using hpnc
  obtain ⟨w, hw⟩ := Option.ne_none_iff_exists'.mp (hcov p hpprev)
  refine ⟨w, hw, List.mem_filter.mpr ⟨dlookup_mem hw, ?_⟩⟩
  simp only [decide_eq_true_eq]
  intro hcont
  have hmemprev : (p.1, w) ∈ prev := List.elem_iff.mp hcont
  have hweq : w = p.2 := mem_key_unique prev hprev hmemprev (by simpa using hpprev)
  subst hweq
  exact hpnc (List.elem_iff.mpr (dlookup_mem hw))

/-! ## Claim C1 — realtime updater delta semantics -/

/-- Claim C1, corrected.  A `More Data` record only merges into the
accumulator and emits nothing; a closing record with an all-falsy
accumulator is filtered out and clears the accumulator.  A closing record
with a truthy accumulator emits the delta
`{k : cur[k] | cur[k] ≠ prev[k] or k ∉ prev}` exactly when it is
non-empty, setting `prev := cur` on emission, and clears the accumulator —
PROVIDED every key of `prev` still occurs in `cur`.  When a key of `prev`
is missing from `cur`, the comprehension over the symmetric item
difference raises `KeyError` (the run aborts: no event, no state update,
no clearing), which the claim does not allow for. -/
theorem claim_C1_amended (st : UpdState) (n : Notif)
    (hprev : dkeysNodup st.prev) (hres : dkeysNodup st.result) :
    (n.more = true →
      onNotify st n = some (⟨st.prev, dmerge st.result n.parsed⟩, none)) ∧
    (n.more = false →
      ((dmerge st.result n.parsed).any (fun p => p.2 ≠ 0) = false →
        onNotify st n = some (⟨st.prev, []⟩, none)) ∧
      ((dmerge st.result n.parsed).any (fun p => p.2 ≠ 0) = true →
        ((∃ p ∈ st.prev, dlookup (dmerge st.result n.parsed) p.1 = none) →
          onNotify st n = none) ∧
        ((∀ p ∈ st.prev, dlookup (dmerge st.result n.parsed) p.1 ≠ none) →
          ((dmerge st.result n.parsed).filter
              (fun p => dlookup st.prev p.1 ≠ some p.2) = [] →
            onNotify st n = some (⟨st.prev, []⟩, none)) ∧
          ((dmerge st.result n.parsed).filter
              (fun p => dlookup st.prev p.1 ≠ some p.2) ≠ [] →
            onNotify st n = some (⟨dmerge st.result n.parsed, []⟩,
              some ((dmerge st.result n.parsed).filter
                (fun p => dlookup st.prev p.1 ≠ some p.2))))))) := by
  have hcur : dkeysNodup (dmerge st.result n.parsed) := dmerge_keys_nodup hres n.parsed
  refine ⟨fun hmore => ?_, fun hmore =>
    ⟨fun hany => ?_, fun hany => ⟨fun hmiss => ?_, fun hcov => ⟨fun hde => ?_, fun hdne => ?_⟩⟩⟩⟩
  · unfold onNotify
    rw [hmore]
    rfl
  · simp only [onNotify, hmore, hany]
    simp
  · have hbuild : buildDelta (dmerge st.result n.parsed)
        (symmDiffItems (dmerge st.result n.parsed) st.prev) = none := by
      obtain ⟨p, hpprev, hplook⟩ := hmiss
      refine foldl_deltaStep_missing _ _ ⟨p, ?_, hplook⟩ []
      unfold symmDiffItems
      refine List.mem_append.mpr (.inr (List.mem_filter.mpr ⟨hpprev, ?_⟩))
      simp only [decide_eq_true_eq]
      intro hcont
      exact (dlookup_none_iff _ _).mp hplook p (List.elem_iff.mp hcont) rfl
    simp only [onNotify, hmore, hany, hbuild]
    simp
  · have hbuild := buildDelta_covered (dmerge st.result n.parsed) st.prev hcur hprev hcov
    have hdeq : (dmerge st.result n.parsed).filter (fun p => ¬ st.prev.contains p)
        = (dmerge st.result n.parsed).filter
          (fun p => dlookup st.prev p.1 ≠ some p.2) := by
      refine List.filter_congr fun p hp => ?_
      rw [decide_eq_decide]
      constructor
      · intro hnc hlk
        exact hnc (List.elem_iff.mpr (dlookup_mem hlk))
      · intro hne hcont
        exact hne (dlookup_of_mem hprev (List.elem_iff.mp hcont))
    rw [hdeq] at hbuild
    simp only [onNotify, hmore, hany, hbuild, hde]
    simp
  · have hbuild := buildDelta_covered (dmerge st.result n.parsed) st.prev hcur hprev hcov
    have hdeq : (dmerge st.result n.parsed).filter (fun p => ¬ st.prev.contains p)
        = (dmerge st.result n.parsed).filter
          (fun p => dlookup st.prev p.1 ≠ some p.2) := by
      refine List.filter_congr fun p hp => ?_
      rw [decide_eq_decide]
      constructor
      · intro hnc hlk
        exact hnc (List.elem_iff.mpr (dlookup_mem hlk))
      · intro hne hcont
        exact hne (dlookup_of_mem hprev (List.elem_iff.mp hcont))
    rw [hdeq] at hbuild
    have hne' : ((dmerge st.result n.parsed).filter
        (fun p => dlookup st.prev p.1 ≠ some p.2)).isEmpty = false := by
      rcases Bool.eq_false_or_eq_true (((dmerge st.result n.parsed).filter
        (fun p => dlookup st.prev p.1 ≠ some p.2)).isEmpty) with hb | hb
      · exact absurd (List.isEmpty_iff.mp hb) hdne
      · exact hb
    simp only [onNotify, hmore, hany, hbuild, hne']
    simp

/-- Witness for `claim_C1_amended`: previous snapshot `{a: 2}`, closing
record decoding `{a: 1, b: 0}`; both entries differ from the snapshot, so
the update `{a: 1, b: 0}` is emitted and becomes the new snapshot. -/
theorem claim_C1_witness :
    (dkeysNodup ([("a", 2)] : Dict) ∧ dkeysNodup ([] : Dict)) ∧
    onNotify ⟨[("a", 2)], []⟩ ⟨[("a", 1), ("b", 0)], false⟩
      = some (⟨[("a", 1), ("b", 0)], []⟩, some [("a", 1), ("b", 0)]) := by
  refine ⟨⟨by unfold dkeysNodup; decide, by unfold dkeysNodup; decide⟩, ?_⟩
  have h := claim_C1_amended ⟨[("a", 2)], []⟩ ⟨[("a", 1), ("b", 0)], false⟩
    (by unfold dkeysNodup; decide) (by unfold dkeysNodup; decide)
  exact ((((h.2 rfl).2 (by decide)).2 (by decide)).2 (by decide))

/-- Counterexample to claim C1 as stated: first notification emits
`{a: 1}` (so `prev = {a: 1}`), the second closing record decodes only
`{b: 2}`.  The claim's delta `{k : cur[k] ≠ prev[k] or k ∉ prev}` is the
non-empty `{b: 2}`, so the claim demands a second Update event; the code
instead raises `KeyError` when the comprehension looks up the
symmetric-difference key `a` in `cur` (the run returns `none`). -/
theorem claim_C1_counterexample :
    processNotifs ⟨[], []⟩ [⟨[("a", 1)], false⟩, ⟨[("b", 2)], false⟩] = none ∧
    ([("b", 2)] : Dict).filter (fun p => dlookup [("a", 1)] p.1 ≠ some p.2) ≠ [] := by
  refine ⟨rfl, by decide⟩

end PyFtms
